import Mathlib

/-!
Verification of the heading/orientation estimation engine of the ps-intake
field-survey app.  The engine is the `OrientationManager` class: it ingests
device-orientation samples (alpha/beta/gamma angles, optionally a platform
compass heading), derives a camera-centric pitch, a North-referenced azimuth
with tilt compensation, smooths the azimuth over a 5-element FIFO buffer with
wraparound-aware averaging, and exposes a 16-point cardinal direction label.

The embedding below translates the JavaScript faithfully: sensor values are
rationals, JavaScript `Math.round` is round-half-up, and the JavaScript `%`
operator is a truncating remainder.  Null/undefined fields are `Option`.
-/

namespace PSIntake

/-- JavaScript `Math.round`: round half toward positive infinity. -/
def jround (q : ℚ) : ℤ := ⌊q + 1/2⌋

/-- Truncation toward zero, the integer quotient underlying the JavaScript
`%` operator on numbers. -/
def rtrunc (q : ℚ) : ℤ := if 0 ≤ q then ⌊q⌋ else ⌈q⌉

/-- JavaScript remainder `a % b` on numbers (the sign follows the dividend). -/
def jsmod (a b : ℚ) : ℚ := a - b * rtrunc (a / b)

/-- Buffer capacity: `this.bufferSize = 5` set in the `OrientationManager`
constructor. -/
def bufferSize : ℕ := 5

/-- A `DeviceOrientationEvent` as the two handlers read it: `alpha`, `beta`,
`gamma` may be `null`; `webkitCompassHeading` is present only on iOS
(`undefined` elsewhere). -/
structure OrientationEvent where
  alpha : Option ℚ
  beta : Option ℚ
  gamma : Option ℚ
  webkitCompassHeading : Option ℚ
deriving DecidableEq

/-- The mutable fields of `OrientationManager` that the ingestion path
touches: `this.azimuth`, `this.pitch`, `this.hasReceivedData`,
`this.azimuthBuffer`, `this.smoothedAzimuth`. -/
structure OrientationManager where
  azimuth : Option ℤ
  pitch : Option ℤ
  hasReceivedData : Bool
  azimuthBuffer : List ℤ
  smoothedAzimuth : Option ℤ
deriving DecidableEq

/-- The constructor state: everything null/empty, no data received. -/
def initialState : OrientationManager :=
  { azimuth := none, pitch := none, hasReceivedData := false,
    azimuthBuffer := [], smoothedAzimuth := none }

/-- The JavaScript test `this.pitch > 45` where `this.pitch` may still be
`null` (in JavaScript `null > 45` is `false`). -/
def pitchGt45 : Option ℤ → Bool
  | none => false
  | some p => decide (45 < p)

/-- Clamping applied after `Math.round(rawBeta - 90)`: the two statements
`if (this.pitch > 90) this.pitch = 90; if (this.pitch < -90) this.pitch = -90`. -/
def clampPitch (p : ℤ) : ℤ := if 90 < p then 90 else if p < -90 then -90 else p

/-- Smoothing step `OrientationManager.smoothAzimuth`: push the new reading, evict the oldest
when the buffer exceeds `bufferSize`, then average — with the +360
normalization of values below 180 and a final `% 360` when the buffer holds
both a value below 90 and a value above 270.  Returns the updated
`this.azimuthBuffer` together with the rounded average. -/
def smoothAzimuth (buffer : List ℤ) (newAzimuth : ℤ) : List ℤ × ℤ :=
  let pushed := buffer ++ [newAzimuth]
  let buf := if bufferSize < pushed.length then pushed.tail else pushed
  let hasWraparound := buf.any (fun v => decide (v < 90)) &&
                       buf.any (fun v => decide (270 < v))
  let average : ℚ :=
    if hasWraparound then
      let normalized := buf.map (fun v => if v < 180 then v + 360 else v)
      jsmod ((normalized.sum : ℚ) / (normalized.length : ℚ)) 360
    else
      (buf.sum : ℚ) / (buf.length : ℚ)
  (buf, jround average)

/-- Handler `OrientationManager.handleOrientationAbsolute`: set `hasReceivedData`,
derive pitch from `beta` when present, and when both `alpha` and `beta` are
non-null take `alpha` as the azimuth candidate, flip it by 180 when
`this.pitch > 45`, round, store, and smooth. -/
def handleOrientationAbsolute (st : OrientationManager) (ev : OrientationEvent) :
    OrientationManager :=
  let st1 := { st with hasReceivedData := true }
  let st2 := match ev.beta with
    | some b => { st1 with pitch := some (clampPitch (jround (b - 90))) }
    | none => st1
  match ev.alpha, ev.beta with
  | some a, some _ =>
    let azimuth : ℚ := a
    let azimuth := if pitchGt45 st2.pitch then jsmod (a + 180) 360 else azimuth
    let raw := jround azimuth
    let res := smoothAzimuth st2.azimuthBuffer raw
    { st2 with azimuth := some raw, azimuthBuffer := res.1,
               smoothedAzimuth := some res.2 }
  | _, _ => st2

/-- Handler `OrientationManager.handleOrientation` (fallback path): set
`hasReceivedData`, derive pitch from `beta` when present; if
`webkitCompassHeading` is defined use it as the candidate, otherwise if
`alpha` is non-null use `360 - alpha`; in either case flip by 180 when
`this.pitch > 45`, round, store, and smooth. -/
def handleOrientation (st : OrientationManager) (ev : OrientationEvent) :
    OrientationManager :=
  let st1 := { st with hasReceivedData := true }
  let st2 := match ev.beta with
    | some b => { st1 with pitch := some (clampPitch (jround (b - 90))) }
    | none => st1
  match ev.webkitCompassHeading with
  | some h =>
    let azimuth := if pitchGt45 st2.pitch then jsmod (h + 180) 360 else h
    let raw := jround azimuth
    let res := smoothAzimuth st2.azimuthBuffer raw
    { st2 with azimuth := some raw, azimuthBuffer := res.1,
               smoothedAzimuth := some res.2 }
  | none =>
    match ev.alpha with
    | some a =>
      let azimuth : ℚ := 360 - a
      let azimuth := if pitchGt45 st2.pitch then jsmod (azimuth + 180) 360 else azimuth
      let raw := jround azimuth
      let res := smoothAzimuth st2.azimuthBuffer raw
      { st2 with azimuth := some raw, azimuthBuffer := res.1,
                 smoothedAzimuth := some res.2 }
    | none => st2

/-- The 16-point compass rose array of `getCardinalDirection`. -/
def directions : List String :=
  ["N", "NNE", "NE", "ENE", "E", "ESE", "SE", "SSE",
   "S", "SSW", "SW", "WSW", "W", "WNW", "NW", "NNW"]

/-- Lookup `OrientationManager.getCardinalDirection`:
`directions[Math.round(azimuth / 22.5) % 16]`.  A negative index would read
`undefined` in JavaScript, hence the `Option`. -/
def getCardinalDirection (azimuth : ℚ) : Option String :=
  let index := Int.tmod (jround (azimuth / (45/2))) 16
  if 0 ≤ index then directions.get? index.toNat else none

/-- The pitch stored after a handler processed `ev` against prior state `st`:
recomputed from `beta` when `beta` is non-null, otherwise retained. -/
def pitchAfter (st : OrientationManager) (ev : OrientationEvent) : Option ℤ :=
  match ev.beta with
  | some b => some (clampPitch (jround (b - 90)))
  | none => st.pitch

/-- The tilt-compensation rule shared verbatim by all three azimuth branches:
flip the candidate by 180 degrees exactly when the stored pitch exceeds 45. -/
def tiltCompensate (pitch : Option ℤ) (candidate : ℚ) : ℚ :=
  if pitchGt45 pitch then jsmod (candidate + 180) 360 else candidate

/-- Smoothed average as the specification words it: the plain rounded
arithmetic mean, unless the buffer holds a value below 90 and a value above
270, in which case every value below 180 is shifted by +360, the shifted
values are averaged, and the result is reduced modulo 360 before rounding. -/
def specSmoothedAverage (buf : List ℤ) : ℤ :=
  if buf.any (fun v => decide (v < 90)) && buf.any (fun v => decide (270 < v)) then
    jround (jsmod (((buf.map (fun v => if v < 180 then v + 360 else v)).sum : ℚ) /
      (buf.length : ℚ)) 360)
  else
    jround ((buf.sum : ℚ) / (buf.length : ℚ))

/-- A sample within the documented sensor ranges: `alpha` in [0, 360] when
present, platform compass heading in [0, 360] when present. -/
def validEvent (ev : OrientationEvent) : Prop :=
  (match ev.alpha with | some a => 0 ≤ a ∧ a ≤ 360 | none => True) ∧
  (match ev.webkitCompassHeading with | some h => 0 ≤ h ∧ h ≤ 360 | none => True)

/-- One ingestion step: the platform dispatches each sample to
`handleOrientationAbsolute` (`true`) or `handleOrientation` (`false`). -/
def ingest (st : OrientationManager) (s : Bool × OrientationEvent) :
    OrientationManager :=
  if s.1 then handleOrientationAbsolute st s.2 else handleOrientation st s.2

/-- Range predicate for the stored (optional) angle fields: when non-null the
value lies in the closed interval [0, 360]. -/
def optIn : Option ℤ → Prop
  | none => True
  | some z => 0 ≤ z ∧ z ≤ 360

/-- Invariant carried by the heading state: every buffered raw azimuth, the
stored raw azimuth and the smoothed azimuth lie in [0, 360]. -/
def HeadInv (st : OrientationManager) : Prop :=
  (∀ z ∈ st.azimuthBuffer, 0 ≤ z ∧ z ≤ 360) ∧ optIn st.azimuth ∧ optIn st.smoothedAzimuth

theorem jround_nonneg {q : ℚ} (hq : 0 ≤ q) : 0 ≤ jround q := by
  unfold jround
  exact Int.le_floor.mpr (by push_cast; linarith)

theorem jround_le_of_le {q : ℚ} {n : ℤ} (hq : q ≤ n) : jround q ≤ n := by
  unfold jround
  have h1 : ⌊q + 1/2⌋ ≤ ⌊(n : ℚ) + 1/2⌋ := Int.floor_le_floor (by linarith)
  have h2 : ⌊(n : ℚ) + 1/2⌋ = n := by
    rw [add_comm, Int.floor_add_int]
    norm_num
  omega

theorem jsmod360_bounds {a : ℚ} (ha : 0 ≤ a) : 0 ≤ jsmod a 360 ∧ jsmod a 360 < 360 := by
  have hx : (0:ℚ) ≤ a / 360 := by positivity
  have hr : rtrunc (a / 360) = ⌊a / 360⌋ := by simp [rtrunc, hx]
  have hey : (360:ℚ) * (a / 360) = a := by field_simp
  have hfl : ((⌊a / 360⌋ : ℤ) : ℚ) ≤ a / 360 := Int.floor_le _
  have hfu : a / 360 < (⌊a / 360⌋ : ℚ) + 1 := Int.lt_floor_add_one _
  have h1 : (360:ℚ) * (⌊a / 360⌋ : ℚ) ≤ a := by nlinarith
  have h2 : a < 360 * (⌊a / 360⌋ : ℚ) + 360 := by nlinarith
  constructor
  · simp only [jsmod, hr]; linarith
  · simp only [jsmod, hr]; linarith

theorem list_sum_le_360 {l : List ℤ} (h : ∀ z ∈ l, z ≤ 360) :
    l.sum ≤ 360 * l.length := by
  induction l with
  | nil => simp
  | cons x xs ih =>
    have hx : x ≤ 360 := h x (List.mem_cons_self _ _)
    have hxs := ih fun z hz => h z (List.mem_cons_of_mem _ hz)
    simp only [List.sum_cons, List.length_cons]
    push_cast
    linarith

theorem avg_bounds {l : List ℤ} (hne : l ≠ []) (h : ∀ z ∈ l, 0 ≤ z ∧ z ≤ 360) :
    0 ≤ ((l.sum : ℚ) / (l.length : ℚ)) ∧ ((l.sum : ℚ) / (l.length : ℚ)) ≤ 360 := by
  have hlen : 0 < (l.length : ℚ) := by
    exact_mod_cast List.length_pos.mpr hne
  have hsum : (0 : ℤ) ≤ l.sum := List.sum_nonneg fun z hz => (h z hz).1
  constructor
  · apply div_nonneg _ (le_of_lt hlen)
    exact_mod_cast hsum
  · rw [div_le_iff₀ hlen]
    exact_mod_cast list_sum_le_360 fun z hz => (h z hz).2

/-- Bounds for the spec-worded smoothed average on a nonempty buffer of
readings in range. -/
theorem specSmoothedAverage_bounds {buf : List ℤ} (hne : buf ≠ [])
    (hb : ∀ z ∈ buf, 0 ≤ z ∧ z ≤ 360) :
    0 ≤ specSmoothedAverage buf ∧ specSmoothedAverage buf ≤ 360 := by
  unfold specSmoothedAverage
  split
  · -- wraparound branch
    set nl := buf.map (fun v => if v < 180 then v + 360 else v) with hnl
    have hnn : ∀ z ∈ nl, (0:ℤ) ≤ z := by
      intro z hz
      rw [hnl] at hz
      obtain ⟨v, hv, rfl⟩ := List.mem_map.mp hz
      have := (hb v hv).1
      split <;> omega
    have hsum : (0:ℤ) ≤ nl.sum := List.sum_nonneg hnn
    have hlen : 0 < (buf.length : ℚ) := by
      exact_mod_cast List.length_pos.mpr hne
    have havg : (0:ℚ) ≤ (nl.sum : ℚ) / (buf.length : ℚ) := by
      apply div_nonneg _ (le_of_lt hlen)
      exact_mod_cast hsum
    have hmod := jsmod360_bounds havg
    exact ⟨jround_nonneg hmod.1, jround_le_of_le (le_of_lt hmod.2)⟩
  · have h := avg_bounds hne hb
    exact ⟨jround_nonneg h.1, jround_le_of_le h.2⟩

/-- Agreement of the smoothing code with the spec-worded average, computed on
the post-push buffer. -/
theorem smoothAzimuth_eq_spec (buffer : List ℤ) (newAzimuth : ℤ) :
    (smoothAzimuth buffer newAzimuth).2 =
      specSmoothedAverage (smoothAzimuth buffer newAzimuth).1 := by
  unfold smoothAzimuth specSmoothedAverage
  simp only [List.length_map]
  split <;> exact apply_ite jround _ _ _

/-- The updated buffer is the pushed buffer, trimmed by one from the front
when it exceeds the capacity. -/
theorem smoothAzimuth_buffer (buffer : List ℤ) (newAzimuth : ℤ) :
    (smoothAzimuth buffer newAzimuth).1 =
      if bufferSize < (buffer ++ [newAzimuth]).length
      then (buffer ++ [newAzimuth]).tail else buffer ++ [newAzimuth] := rfl

theorem smoothAzimuth_sound {buffer : List ℤ} {newAzimuth : ℤ}
    (hb : ∀ z ∈ buffer, 0 ≤ z ∧ z ≤ 360) (h0 : 0 ≤ newAzimuth) (h1 : newAzimuth ≤ 360) :
    (∀ z ∈ (smoothAzimuth buffer newAzimuth).1, 0 ≤ z ∧ z ≤ 360) ∧
    0 ≤ (smoothAzimuth buffer newAzimuth).2 ∧ (smoothAzimuth buffer newAzimuth).2 ≤ 360 := by
  have hpush : ∀ z ∈ buffer ++ [newAzimuth], 0 ≤ z ∧ z ≤ 360 := by
    intro z hz
    rcases List.mem_append.mp hz with h | h
    · exact hb z h
    · simp only [List.mem_singleton] at h
      exact h ▸ ⟨h0, h1⟩
  have hmem : ∀ z ∈ (smoothAzimuth buffer newAzimuth).1, 0 ≤ z ∧ z ≤ 360 := by
    rw [smoothAzimuth_buffer]
    split
    · exact fun z hz => hpush z (List.mem_of_mem_tail hz)
    · exact hpush
  have hne : (smoothAzimuth buffer newAzimuth).1 ≠ [] := by
    rw [smoothAzimuth_buffer]
    split
    · next hlong =>
      have : (buffer ++ [newAzimuth]).tail.length =
          (buffer ++ [newAzimuth]).length - 1 := List.length_tail _
      intro hcon
      rw [hcon] at this
      simp only [List.length_nil] at this
      unfold bufferSize at hlong
      omega
    · simp
  rw [smoothAzimuth_eq_spec]
  exact ⟨hmem, specSmoothedAverage_bounds hne hmem⟩

theorem tiltCompensate_bounds {p : Option ℤ} {cand : ℚ} (h0 : 0 ≤ cand) (h1 : cand ≤ 360) :
    0 ≤ tiltCompensate p cand ∧ tiltCompensate p cand ≤ 360 := by
  unfold tiltCompensate
  split
  · have h := jsmod360_bounds (a := cand + 180) (by linarith)
    exact ⟨h.1, le_of_lt h.2⟩
  · exact ⟨h0, h1⟩

theorem raw_tilt_bounds {p : Option ℤ} {cand : ℚ} (h0 : 0 ≤ cand) (h1 : cand ≤ 360) :
    0 ≤ jround (tiltCompensate p cand) ∧ jround (tiltCompensate p cand) ≤ 360 := by
  have h := tiltCompensate_bounds (p := p) h0 h1
  exact ⟨jround_nonneg h.1, jround_le_of_le (by exact_mod_cast h.2)⟩

theorem handleOrientationAbsolute_inv {st : OrientationManager} {ev : OrientationEvent}
    (hv : validEvent ev) (hi : HeadInv st) : HeadInv (handleOrientationAbsolute st ev) := by
  obtain ⟨hbuf, haz, hsm⟩ := hi
  obtain ⟨a?, b?, g?, w?⟩ := ev
  have hva := hv.1
  cases a? with
  | none => cases b? <;> exact ⟨hbuf, haz, hsm⟩
  | some a =>
    cases b? with
    | none => exact ⟨hbuf, haz, hsm⟩
    | some b =>
      have hva' : 0 ≤ a ∧ a ≤ 360 := hva
      have hraw := raw_tilt_bounds (p := some (clampPitch (jround (b - 90)))) hva'.1 hva'.2
      have hs := smoothAzimuth_sound hbuf hraw.1 hraw.2
      exact ⟨hs.1, hraw, hs.2⟩

theorem handleOrientation_inv {st : OrientationManager} {ev : OrientationEvent}
    (hv : validEvent ev) (hi : HeadInv st) : HeadInv (handleOrientation st ev) := by
  obtain ⟨hbuf, haz, hsm⟩ := hi
  obtain ⟨a?, b?, g?, w?⟩ := ev
  have hva := hv.1
  have hvw := hv.2
  cases w? with
  | some h =>
    have hvw' : 0 ≤ h ∧ h ≤ 360 := hvw
    cases b? with
    | none =>
      have hraw := raw_tilt_bounds (p := st.pitch) hvw'.1 hvw'.2
      have hs := smoothAzimuth_sound hbuf hraw.1 hraw.2
      exact ⟨hs.1, hraw, hs.2⟩
    | some b =>
      have hraw := raw_tilt_bounds (p := some (clampPitch (jround (b - 90)))) hvw'.1 hvw'.2
      have hs := smoothAzimuth_sound hbuf hraw.1 hraw.2
      exact ⟨hs.1, hraw, hs.2⟩
  | none =>
    cases a? with
    | none => cases b? <;> exact ⟨hbuf, haz, hsm⟩
    | some a =>
      have hva' : 0 ≤ a ∧ a ≤ 360 := hva
      have hc0 : (0:ℚ) ≤ 360 - a := by linarith [hva'.2]
      have hc1 : (360:ℚ) - a ≤ 360 := by linarith [hva'.1]
      cases b? with
      | none =>
        have hraw := raw_tilt_bounds (p := st.pitch) hc0 hc1
        have hs := smoothAzimuth_sound hbuf hraw.1 hraw.2
        exact ⟨hs.1, hraw, hs.2⟩
      | some b =>
        have hraw := raw_tilt_bounds (p := some (clampPitch (jround (b - 90)))) hc0 hc1
        have hs := smoothAzimuth_sound hbuf hraw.1 hraw.2
        exact ⟨hs.1, hraw, hs.2⟩

theorem ingest_inv {st : OrientationManager} {s : Bool × OrientationEvent}
    (hv : validEvent s.2) (hi : HeadInv st) : HeadInv (ingest st s) := by
  obtain ⟨b, ev⟩ := s
  cases b with
  | true => exact handleOrientationAbsolute_inv hv hi
  | false => exact handleOrientation_inv hv hi

theorem initial_inv : HeadInv initialState :=
  ⟨fun z hz => absurd hz (List.not_mem_nil z), trivial, trivial⟩

/-- C1 counterexample: the claim that non-null `rawAzimuthDeg` and
`smoothedAzimuthDeg` always lie in [0, 360) fails.  A single in-range
absolute-compass sample with `alpha = 360` and `beta = 90` (pitch 0, so no
tilt compensation) stores azimuth 360 and smoothed azimuth 360, and 360 is
not below 360. -/
theorem azimuth_range_counterexample :
    validEvent ⟨some 360, some 90, none, none⟩ ∧
    (handleOrientationAbsolute initialState ⟨some 360, some 90, none, none⟩).azimuth =
      some 360 ∧
    (handleOrientationAbsolute initialState ⟨some 360, some 90, none, none⟩).smoothedAzimuth =
      some 360 ∧
    ¬ ((360 : ℤ) < 360) := by
  refine ⟨⟨⟨by norm_num, by norm_num⟩, trivial⟩, ?_, ?_, by omega⟩
  · with_unfolding_all decide
  · with_unfolding_all decide

/-- C1 (amended): after every sequence of ingested samples from any of the
three heading sources with `alpha` (and any platform compass heading) in
[0, 360], the stored raw azimuth and smoothed azimuth, when non-null, lie in
the closed interval [0, 360] — the value 360 itself is reachable, so the
half-open interval [0, 360) of the original claim is widened to [0, 360]. -/
theorem azimuth_smoothed_range_closed (samples : List (Bool × OrientationEvent))
    (hv : ∀ s ∈ samples, validEvent s.2) :
    optIn ((samples.foldl ingest initialState).azimuth) ∧
    optIn ((samples.foldl ingest initialState).smoothedAzimuth) := by
  have key : ∀ (l : List (Bool × OrientationEvent)) (st : OrientationManager),
      (∀ s ∈ l, validEvent s.2) → HeadInv st → HeadInv (l.foldl ingest st) := by
    intro l
    induction l with
    | nil => intro st _ h; exact h
    | cons s ss ih =>
      intro st hv2 h
      exact ih _ (fun x hx => hv2 x (List.mem_cons_of_mem _ hx))
        (ingest_inv (hv2 s (List.mem_cons_self _ _)) h)
  have h := key samples initialState hv initial_inv
  exact ⟨h.2.1, h.2.2⟩

/-- Witness for C1 (amended) at the concrete one-sample sequence that
produces azimuth 360. -/
theorem azimuth_smoothed_range_closed_witness :
    optIn (([((true : Bool), (⟨some 360, some 90, none, none⟩ : OrientationEvent))].foldl
      ingest initialState).azimuth) ∧
    optIn (([((true : Bool), (⟨some 360, some 90, none, none⟩ : OrientationEvent))].foldl
      ingest initialState).smoothedAzimuth) :=
  azimuth_smoothed_range_closed _ (by
    intro s hs
    rw [List.mem_singleton] at hs
    subst hs
    exact ⟨⟨by norm_num, by norm_num⟩, trivial⟩)

/-- C2 counterexample: `getCardinalDirection 22` is `"NNE"`, not `"N"` as the
claim states — `round(22 / 22.5) = round(0.978) = 1`, which indexes `"NNE"`. -/
theorem cardinal22_counterexample :
    getCardinalDirection 22 = some "NNE" ∧ getCardinalDirection 22 ≠ some "N" := by
  constructor
  · with_unfolding_all decide
  · with_unfolding_all decide

/-- C2 (amended): `getCardinalDirection` computes
`round(azimuth / 22.5) tmod 16` into the 16-point rose; it maps 0° to "N",
22° to "NNE" (not "N" as originally claimed), 23° to "NNE", 359° to "N", and
wraps azimuth 360 — and any azimuth whose scaled value rounds to 16 — to "N";
for every azimuth in range the lookup lands inside the rose. -/
theorem cardinal_direction_amended :
    getCardinalDirection 0 = some "N" ∧
    getCardinalDirection 22 = some "NNE" ∧
    getCardinalDirection 23 = some "NNE" ∧
    getCardinalDirection 359 = some "N" ∧
    getCardinalDirection 360 = some "N" ∧
    (∀ az : ℚ, jround (az / (45/2)) = 16 → getCardinalDirection az = some "N") ∧
    (∀ az : ℚ, 0 ≤ az → ∃ d, getCardinalDirection az = some d ∧ d ∈ directions) := by
  refine ⟨?_, ?_, ?_, ?_, ?_, ?_, ?_⟩
  · with_unfolding_all decide
  · with_unfolding_all decide
  · with_unfolding_all decide
  · with_unfolding_all decide
  · with_unfolding_all decide
  · intro az h16
    simp only [getCardinalDirection, h16]
    rfl
  · intro az h0
    have hj0 : 0 ≤ jround (az / (45/2)) := jround_nonneg (by positivity)
    have hi0 : 0 ≤ Int.tmod (jround (az / (45/2))) 16 := Int.tmod_nonneg _ hj0
    have hilt : Int.tmod (jround (az / (45/2))) 16 < 16 :=
      Int.tmod_lt_of_pos _ (by norm_num)
    have hlen : (Int.tmod (jround (az / (45/2))) 16).toNat < directions.length := by
      simp only [directions, List.length_cons, List.length_nil]
      omega
    refine ⟨directions.get ⟨_, hlen⟩, ?_, List.get_mem _ _ _⟩
    simp only [getCardinalDirection]
    rw [if_pos hi0]
    exact List.get?_eq_get hlen

/-- Witness for C2 (amended): azimuth 360 rounds to index 16 and wraps to
"N". -/
theorem cardinal_direction_amended_witness : getCardinalDirection 360 = some "N" :=
  cardinal_direction_amended.2.2.2.2.2.1 360 (by with_unfolding_all decide)

/-- C3 (confirmed): the smoothing step computes exactly the spec-worded
average of the post-push buffer — the plain rounded mean unless the buffer
holds a value below 90 and a value above 270, in which case values below 180
are shifted by +360, averaged, and reduced modulo 360 before rounding; the
buffer [350, 355, 358, 2, 5] averages to 358 (near the seam, not near 180)
and [10, 12, 11, 13, 12] averages to 12. -/
theorem smoothing_matches_spec :
    (∀ (buffer : List ℤ) (newAzimuth : ℤ),
      (smoothAzimuth buffer newAzimuth).2 =
        specSmoothedAverage (smoothAzimuth buffer newAzimuth).1) ∧
    (smoothAzimuth [350, 355, 358, 2] 5).1 = [350, 355, 358, 2, 5] ∧
    (smoothAzimuth [350, 355, 358, 2] 5).2 = 358 ∧
    (smoothAzimuth [10, 12, 11, 13] 12).1 = [10, 12, 11, 13, 12] ∧
    (smoothAzimuth [10, 12, 11, 13] 12).2 = 12 := by
  refine ⟨smoothAzimuth_eq_spec, rfl, ?_, rfl, ?_⟩
  · with_unfolding_all decide
  · with_unfolding_all decide

/-- C4 (confirmed): whenever an azimuth candidate is stored, the stored value
is the rounding of the tilt-compensated candidate — flipped by 180 modulo 360
exactly when the governing pitch exceeds 45 — and the rule is the same for
the absolute-compass, platform-compass-heading, and device-relative-fallback
sources; pitch 50 with candidate 10 yields 190, pitch 30 with candidate 10
yields 10. -/
theorem tilt_compensation_uniform :
    (∀ (st : OrientationManager) (a b : ℚ) (g w : Option ℚ),
      (handleOrientationAbsolute st ⟨some a, some b, g, w⟩).azimuth =
        some (jround (tiltCompensate (some (clampPitch (jround (b - 90)))) a))) ∧
    (∀ (st : OrientationManager) (a? b? g : Option ℚ) (h : ℚ),
      (handleOrientation st ⟨a?, b?, g, some h⟩).azimuth =
        some (jround (tiltCompensate (pitchAfter st ⟨a?, b?, g, some h⟩) h))) ∧
    (∀ (st : OrientationManager) (a : ℚ) (b? g : Option ℚ),
      (handleOrientation st ⟨some a, b?, g, none⟩).azimuth =
        some (jround (tiltCompensate (pitchAfter st ⟨some a, b?, g, none⟩) (360 - a)))) ∧
    tiltCompensate (some 50) 10 = 190 ∧
    tiltCompensate (some 30) 10 = 10 ∧
    (handleOrientationAbsolute initialState ⟨some 10, some 140, none, none⟩).azimuth =
      some 190 ∧
    (handleOrientationAbsolute initialState ⟨some 10, some 120, none, none⟩).azimuth =
      some 10 := by
  refine ⟨?_, ?_, ?_, ?_, ?_, ?_, ?_⟩
  · intro st a b g w; rfl
  · intro st a? b? g h; cases b? <;> rfl
  · intro st a b? g; cases b? <;> rfl
  · with_unfolding_all decide
  · with_unfolding_all decide
  · with_unfolding_all decide
  · with_unfolding_all decide

/-- C5 (confirmed): starting from the empty buffer, the azimuth buffer never
exceeds 5 elements under any sequence of pushes, and after 6 pushes it holds
exactly the last 5 values in order — the 1st ingested value has been evicted
(FIFO) and no longer contributes to the smoothed average, which is a function
of the buffer alone. -/
theorem buffer_fifo_capacity :
    (∀ vs : List ℤ, (vs.foldl (fun buf v => (smoothAzimuth buf v).1) []).length ≤ 5) ∧
    (∀ v1 v2 v3 v4 v5 v6 : ℤ,
      [v1, v2, v3, v4, v5, v6].foldl (fun buf v => (smoothAzimuth buf v).1) [] =
        [v2, v3, v4, v5, v6]) := by
  constructor
  · have step : ∀ (buf : List ℤ) (v : ℤ), buf.length ≤ 5 →
        ((smoothAzimuth buf v).1).length ≤ 5 := by
      intro buf v h
      rw [smoothAzimuth_buffer]
      split <;>
      · simp only [bufferSize, List.length_tail, List.length_append,
          List.length_singleton, not_lt] at *
        omega
    have key : ∀ (vs : List ℤ) (buf : List ℤ), buf.length ≤ 5 →
        ((vs.foldl (fun b v => (smoothAzimuth b v).1) buf)).length ≤ 5 := by
      intro vs
      induction vs with
      | nil => intro buf h; exact h
      | cons x xs ih => intro buf h; exact ih _ (step _ _ h)
    intro vs
    exact key vs [] (by simp)
  · intro v1 v2 v3 v4 v5 v6
    rfl

/-- C6 counterexample: the device-relative fallback candidate is `360 - alpha`
with no modulo reduction, so `alpha = 0` stores azimuth 360, while the claimed
`(360 - alpha) mod 360` would store 0 — and 360 is not 0. -/
theorem fallback_alpha0_counterexample :
    (handleOrientation initialState ⟨some 0, none, none, none⟩).azimuth = some 360 ∧
    jround (jsmod (360 - 0) 360) = 0 ∧
    (360 : ℤ) ≠ 0 := by
  refine ⟨?_, ?_, by omega⟩
  · with_unfolding_all decide
  · with_unfolding_all decide

/-- C6 (amended): for every device-relative fallback sample (no platform
compass heading) with non-null `alpha`, the azimuth candidate before tilt
compensation is `360 - alpha` — which coincides with `(360 - alpha) mod 360`
for `alpha` in (0, 360] but yields 360, not 0, at `alpha = 0`; in particular
`alpha = 90` yields raw azimuth 270. -/
theorem fallback_candidate_amended :
    (∀ (st : OrientationManager) (a : ℚ) (b? g : Option ℚ),
      (handleOrientation st ⟨some a, b?, g, none⟩).azimuth =
        some (jround (tiltCompensate (pitchAfter st ⟨some a, b?, g, none⟩) (360 - a)))) ∧
    (handleOrientation initialState ⟨some 90, none, none, none⟩).azimuth = some 270 ∧
    (∀ a : ℚ, 0 < a → a ≤ 360 → (360 : ℚ) - a = jsmod (360 - a) 360) := by
  refine ⟨?_, ?_, ?_⟩
  · intro st a b? g; cases b? <;> rfl
  · with_unfolding_all decide
  · intro a h0 h1
    have hx0 : (0:ℚ) ≤ (360 - a) / 360 := div_nonneg (by linarith) (by norm_num)
    have hx1 : (360 - a) / 360 < 1 := by
      rw [div_lt_one (by norm_num : (0:ℚ) < 360)]
      linarith
    have hfl : ⌊(360 - a) / 360⌋ = 0 := Int.floor_eq_zero_iff.mpr ⟨hx0, hx1⟩
    unfold jsmod rtrunc
    rw [if_pos hx0, hfl]
    push_cast
    ring

/-- Witness for C6 (amended): at `alpha = 90` the candidate `360 - 90 = 270`
agrees with its modulo-360 reduction. -/
theorem fallback_candidate_amended_witness :
    (360 : ℚ) - 90 = jsmod (360 - 90) 360 :=
  fallback_candidate_amended.2.2 90 (by norm_num) (by norm_num)

/-- C7 (confirmed): on either ingestion path, a sample with non-null `beta`
stores pitch `round(beta - 90)` clamped to [-90, 90] — hence the stored pitch
always lies in [-90, 90] — and the stored azimuth of the same sample is
computed from this freshly derived pitch, not the previous one: the handler
result does not depend on the pitch held before the sample. -/
theorem pitch_derivation_clamped :
    ∀ (st : OrientationManager) (a? g w : Option ℚ) (b : ℚ),
      (handleOrientationAbsolute st ⟨a?, some b, g, w⟩).pitch =
        some (clampPitch (jround (b - 90))) ∧
      (handleOrientation st ⟨a?, some b, g, w⟩).pitch =
        some (clampPitch (jround (b - 90))) ∧
      (-90 ≤ clampPitch (jround (b - 90)) ∧ clampPitch (jround (b - 90)) ≤ 90) ∧
      (∀ p : Option ℤ,
        handleOrientationAbsolute { st with pitch := p } ⟨a?, some b, g, w⟩ =
          handleOrientationAbsolute st ⟨a?, some b, g, w⟩ ∧
        handleOrientation { st with pitch := p } ⟨a?, some b, g, w⟩ =
          handleOrientation st ⟨a?, some b, g, w⟩) := by
  intro st a? g w b
  refine ⟨?_, ?_, ?_, ?_⟩
  · cases a? <;> rfl
  · cases w <;> cases a? <;> rfl
  · unfold clampPitch
    split
    · omega
    · split <;> omega
  · intro p
    constructor
    · cases a? <;> rfl
    · cases w <;> cases a? <;> rfl

/-- C8 (confirmed): a sample with `alpha` and `beta` both null and no platform
compass heading changes nothing but `hasReceivedData`: both handlers are total
functions returning the prior state with only that flag set, so azimuth,
pitch, smoothed azimuth and the buffer are retained. -/
theorem null_sample_noop :
    ∀ (st : OrientationManager) (g : Option ℚ),
      handleOrientationAbsolute st ⟨none, none, g, none⟩ =
        { st with hasReceivedData := true } ∧
      handleOrientation st ⟨none, none, g, none⟩ =
        { st with hasReceivedData := true } := by
  intro st g
  exact ⟨rfl, rfl⟩

/-- C9 (confirmed): on the absolute-compass path a sample with `alpha` present
but `beta` null leaves the whole state unchanged except `hasReceivedData` — in
particular raw azimuth, smoothed azimuth and the buffer — while a sample with
both fields present does store an azimuth. -/
theorem absolute_requires_beta :
    ∀ (st : OrientationManager) (a : ℚ) (g w : Option ℚ),
      handleOrientationAbsolute st ⟨some a, none, g, w⟩ =
        { st with hasReceivedData := true } ∧
      (∀ b : ℚ, ((handleOrientationAbsolute st ⟨some a, some b, g, w⟩).azimuth).isSome = true) := by
  intro st a g w
  exact ⟨rfl, fun b => rfl⟩

/-- C10 (confirmed): on the fallback path with a platform compass heading and
null `beta`, the tilt-compensation test reads the stored pitch, not the
sample: the azimuth is `round(heading + 180 mod 360)` exactly when the
retained pitch exceeds 45; before any `beta` has been seen (pitch still null)
no compensation is applied; and a pitch of 50 retained from an earlier
beta-only sample flips a later heading of 10 to 190. -/
theorem fallback_uses_stored_pitch :
    ∀ (st : OrientationManager) (a? g : Option ℚ) (h : ℚ),
      (handleOrientation st ⟨a?, none, g, some h⟩).azimuth =
        some (jround (tiltCompensate st.pitch h)) ∧
      (handleOrientation initialState ⟨a?, none, g, some h⟩).azimuth =
        some (jround h) ∧
      (handleOrientation (handleOrientation initialState ⟨none, some 140, none, none⟩)
        ⟨none, none, none, some 10⟩).azimuth = some 190 := by
  intro st a? g h
  refine ⟨rfl, rfl, ?_⟩
  with_unfolding_all decide

end PSIntake
